import Mathlib

/-!
Verification of the repobuild target/node core: the Makefile code-generation
engine around `CCSharedLibraryNode` (src/unnamed/part_000, a header of
declarations) and `AutoconfNode` (src/nodes/autoconf.h).  The repository under
src/ exposes only the class declarations; the method bodies live outside the
provided sources, so the behavioural definitions below are modelled from the
specification's description of those methods, as marked in each doc comment.
-/

namespace Repobuild

/-- TargetInfo: the immutable identity of a declared target, a
project-relative directory plus a target name (spec §3). -/
structure TargetInfo where
  dir : String
  name : String
deriving DecidableEq, Repr

/-- Resource: a logical output path with deterministic derivation
(spec §3); equality is structural. -/
structure Resource where
  path : String
deriving DecidableEq, Repr

/-- Node kinds instantiated by the repository: generic node, compiled-library
node (`CCLibraryNode`), versioned shared-library node (`CCSharedLibraryNode`),
external-build-tool node (`AutoconfNode`) (spec §2, §9). -/
inductive NodeKind where
  | generic
  | ccLibrary
  | ccSharedLibrary
  | autoconf
deriving DecidableEq, Repr

/-- A single Makefile rule: a physical rule-target string, its prerequisite
list and an opaque recipe (spec §6). -/
structure Rule where
  target : String
  prereqs : List String
  recipe : String
deriving DecidableEq, Repr

/-- Errors of the compiler (spec §7): ConfigError for malformed declarations
and strip-prefix mismatches, CycleError when the dependency graph is cyclic. -/
inductive BuildError where
  | configError (msg : String)
  | cycleError (remaining : List TargetInfo)
deriving DecidableEq, Repr

/-- Modelled from the spec: the shared Makefile accumulator checks for a
pre-existing identical rule target and skips re-emission (spec §4.1); this is
one emission step. -/
def emitRule (mf : List Rule) (r : Rule) : List Rule :=
  if mf.any (fun q => q.target = r.target) then mf else mf ++ [r]

/-- Modelled from the spec: appending one node's rule fragment to the shared
accumulator, rule by rule (spec §4.1, §9). -/
def emitRules (mf : List Rule) (rs : List Rule) : List Rule :=
  rs.foldl emitRule mf

/-- Modelled from the spec: the deduplicating reducer merging every node's
fragment into the final output document (spec §9). -/
def emitAll (frags : List (List Rule)) : List Rule :=
  frags.foldl emitRules []

/-- Parsed state of one node: its TargetInfo, kind, declared dependency list
(ordered), and its own compiled-object resources (spec §3). -/
structure NodeData where
  target : TargetInfo
  kind : NodeKind
  deps : List TargetInfo
  objects : List Resource
deriving DecidableEq, Repr

/-- Compiled-library kinds: nodes whose raw objects a shared library absorbs
directly (spec §4.3); external-tool and generic nodes are not of this kind. -/
def isCompiledLibraryKind : NodeKind → Bool
  | .ccLibrary => true
  | .ccSharedLibrary => true
  | .generic => false
  | .autoconf => false

/-- Modelled from the spec: the object resources a directly-depended-on node
contributes to a shared library's link input — its compiled objects when it is
of compiled-library kind, nothing otherwise (spec §4.3,
`CCSharedLibraryNode::ObjectFiles`). -/
def depObjects (resolve : TargetInfo → Option NodeData) (d : TargetInfo) :
    List Resource :=
  match resolve d with
  | some dn => if isCompiledLibraryKind dn.kind then dn.objects else []
  | none => []

/-- Modelled from the spec: `CCSharedLibraryNode::ObjectFiles` — the link
input is the union of the node's own compiled objects and the compiled
objects of every directly-depended-on compiled-library-kind node
(spec §4.3). -/
def linkInput (resolve : TargetInfo → Option NodeData) (n : NodeData) :
    List Resource :=
  n.objects ++ (n.deps.map (depObjects resolve)).flatten

/-- The plain (unversioned) shared-object filename for a base name. -/
def soName (base : String) : String := base ++ ".so"

/-- Modelled from the spec: the soname chain as one pure chain-construction
function, most specific filename first, ending at the plain unversioned name
(spec §4.3, §9: versionChain).  Each present version component extends the
chain by one more specific filename; absent components (empty strings, as in
the `std::string` fields `major_version_` etc. of part_000 line 39) stop the
chain. -/
def chainNames (base major minor release : String) : List String :=
  if major = "" then [soName base]
  else if minor = "" then [soName base ++ "." ++ major, soName base]
  else if release = "" then
    [soName base ++ "." ++ major ++ "." ++ minor,
     soName base ++ "." ++ major,
     soName base]
  else
    [soName base ++ "." ++ major ++ "." ++ minor ++ "." ++ release,
     soName base ++ "." ++ major ++ "." ++ minor,
     soName base ++ "." ++ major,
     soName base]

/-- Modelled from the spec: one symlink rule per chain link, each with the
next-more-specific filename as sole prerequisite
(spec §4.3, `CCSharedLibraryNode::WriteLink`). -/
def symlinkRules : String → List String → List Rule
  | _, [] => []
  | prev, n :: rest =>
      { target := n, prereqs := [prev],
        recipe := "ln -f -s " ++ prev ++ " " ++ n } :: symlinkRules n rest

/-- Modelled from the spec: the link rule producing the real linked file (the
chain terminus), from the link-input object paths, with the optional
exported-symbols resource passed as a linker export-map input when configured
(spec §4.3, `CCSharedLibraryNode::WriteLink`, `exported_symbols_`). -/
def linkRule (real : String) (objs : List String) (exportMap : String) :
    Rule :=
  { target := real, prereqs := objs,
    recipe := "$(LINK.shared) " ++ real ++
      (if exportMap = "" then "" else " -Wl,--version-script=" ++ exportMap) }

/-- Modelled from the spec: `CCSharedLibraryNode::WriteLink` — the real
linked file's rule followed by the symlink cascade down to the unversioned
name (spec §4.3). -/
def writeLink (names : List String) (objs : List String)
    (exportMap : String) : List Rule :=
  match names with
  | [] => []
  | real :: rest => linkRule real objs exportMap :: symlinkRules real rest

/-- Parse-time configuration of a `CCSharedLibraryNode` (part_000 lines
39-41): the version component strings (empty when absent), the exported
symbols resource (empty when unset) and the install strip-prefix string
(empty when unset), plus the library's base name. -/
structure SharedLibConfig where
  basename : String
  major : String
  minor : String
  release : String
  exportMap : String
  stripPfx : String
deriving DecidableEq, Repr

/-- Modelled from the spec: the version-descriptor validation inside
`CCSharedLibraryNode::Parse` (part_000 line 23) — monotonic specificity:
minor requires major, release requires minor; violation fails with a
ConfigError (spec §4.3). -/
def parseVersion (mj mn rl : String) :
    Except BuildError (String × String × String) :=
  if mn ≠ "" ∧ mj = "" then
    .error (.configError "minor version requires major version")
  else if rl ≠ "" ∧ mn = "" then
    .error (.configError "release version requires minor version")
  else .ok (mj, mn, rl)

/-- Modelled from the spec: `CCSharedLibraryNode::Parse` followed by
`LocalWriteMake` — a ConfigError from Parse aborts the compilation before
any Makefile text is produced (spec §5, §7); otherwise the link rule and the
symlink cascade are emitted from the chain-construction function. -/
def parseAndWrite (cfg : SharedLibConfig) (objs : List String) :
    Except BuildError (List Rule) :=
  match parseVersion cfg.major cfg.minor cfg.release with
  | .error e => .error e
  | .ok _ =>
      .ok (writeLink (chainNames cfg.basename cfg.major cfg.minor cfg.release)
            objs cfg.exportMap)

/-- Modelled from the spec: `CCSharedLibraryNode::DestInstallDir` (part_000
line 37) derives the install destination from the source resource's logical
path with the configured strip-prefix string (part_000 line 40) removed; a
configured strip-prefix that is not an actual prefix of the path is a
ConfigError (spec §4.3). -/
def destInstallDir (stripPfx : String) (source : Resource) :
    Except BuildError String :=
  if stripPfx.data.isPrefixOf source.path.data then
    .ok (source.path.drop stripPfx.length)
  else
    .error (.configError ("install strip path piece " ++ stripPfx ++
      " does not begin " ++ source.path))

/-- One install-time action: copy/link the built file `src` to the computed
destination `dest` (spec §4.3, §6). -/
structure InstallAction where
  src : String
  dest : String
deriving DecidableEq, Repr

/-- Modelled from the spec: the install actions for one soname chain, each
destination computed by `destInstallDir`; an error anywhere aborts the whole
computation (spec §4.3, §7). -/
def installChain (stripPfx : String) : List String →
    Except BuildError (List InstallAction)
  | [] => .ok []
  | n :: rest =>
      match destInstallDir stripPfx ⟨n⟩ with
      | .error e => .error e
      | .ok d =>
          match installChain stripPfx rest with
          | .error e => .error e
          | .ok todo => .ok (⟨n, d⟩ :: todo)

/-- Modelled from the spec: `CCSharedLibraryNode::LocalWriteMakeInstall`
(part_000 lines 27-28) installs the chain terminus plus every symlink of the
chain, the set of filenames being derived from the identical
chain-construction function used by the build rules (spec §4.3). -/
def localWriteMakeInstall (cfg : SharedLibConfig) :
    Except BuildError (List InstallAction) :=
  installChain cfg.stripPfx
    (chainNames cfg.basename cfg.major cfg.minor cfg.release)

/-- Language tag of a produced resource set (`LanguageType` in the node
interface). -/
inductive LanguageType where
  | cLang
  | cppLang
deriving DecidableEq, Repr

/-- Modelled from the spec: `Node::WriteBaseUserTarget` — the body is not
under src/; per spec §4.4 it appends the node's single user-facing
placeholder rule, whose recipe invokes the recorded external build command. -/
def writeBaseUserTarget (t : TargetInfo) (cmd : String) (out : List Rule) :
    List Rule :=
  out ++ [{ target := t.dir ++ "/" ++ t.name, prereqs := [], recipe := cmd }]

/-- From src/nodes/autoconf.h lines 20-23: `AutoconfNode::WriteMakefile`
receives the resolved dependency list and the Makefile accumulator and calls
`WriteBaseUserTarget(out)` — its body never reads `all_deps`. -/
def AutoconfNode.WriteMakefile (t : TargetInfo) (cmd : String)
    (all_deps : List NodeData) (out : List Rule) : List Rule :=
  writeBaseUserTarget t cmd out

/-- Modelled from the spec: `AutoconfNode` declares no `ObjectFiles` override
(src/nodes/autoconf.h lines 12-24); per spec §4.4 it contributes no object
resources — the empty set — since its internals are opaque to the dependency
graph. -/
def AutoconfNode.ObjectFiles (lang : LanguageType) : List Resource := []

/-- Modelled from the spec: one phase of the graph resolver — split the
pending nodes into those whose declared dependencies are all already
resolved, and the rest (spec §4.5). -/
def readyPartition (resolved : List TargetInfo) (pending : List NodeData) :
    List NodeData × List NodeData :=
  pending.partition (fun n => n.deps.all (fun d => decide (d ∈ resolved)))

/-- Modelled from the spec: the graph resolver visits each TargetInfo at most
once and produces an order in which every node's dependencies are resolved
before the node itself; when no pending node can make progress the graph is
cyclic and resolution fails with a CycleError naming the remaining targets
(spec §4.5, §7). -/
def resolveAux (fuel : Nat) (resolved : List TargetInfo)
    (acc pending : List NodeData) : Except BuildError (List NodeData) :=
  match pending with
  | [] => .ok acc
  | _ :: _ =>
    match fuel with
    | 0 => .error (.cycleError (pending.map NodeData.target))
    | fuel' + 1 =>
      let pr := readyPartition resolved pending
      if pr.1.isEmpty then
        .error (.cycleError (pending.map NodeData.target))
      else
        resolveAux fuel' (resolved ++ pr.1.map NodeData.target)
          (acc ++ pr.1) pr.2

/-- Modelled from the spec: the dependency-graph resolver over the full node
set (spec §4.5). -/
def resolveGraph (nodes : List NodeData) : Except BuildError (List NodeData) :=
  resolveAux nodes.length [] [] nodes

/-- Modelled from the spec: the whole compilation — resolve the graph, then
ask each node in resolver order for its Makefile fragment and merge the
fragments through the deduplicating emitter; a fatal error produces no
partial Makefile output (spec §2, §5). -/
def compileGraph (fragments : NodeData → List Rule) (nodes : List NodeData) :
    Except BuildError (List Rule) :=
  (resolveGraph nodes).map (fun order => emitAll (order.map fragments))

/-- A cycle witness: a nonempty set of targets, each declared among the
nodes, each with a declared dependency edge staying inside the set
(spec §4.5; absorption edges are dependency edges of the shared-library
node). -/
def HasCycle (nodes : List NodeData) : Prop :=
  ∃ C : List TargetInfo, C ≠ [] ∧
    ∀ t ∈ C, ∃ n ∈ nodes, n.target = t ∧ ∃ d ∈ n.deps, d ∈ C

/-- Modelled from the spec: parallel fragment computation stores each node's
fragment keyed by its TargetInfo; this looks a node's fragment up from the
computation order (spec §5, §9). -/
def fragTable (fragments : NodeData → List Rule) (computed : List NodeData)
    (t : TargetInfo) : Option (List Rule) :=
  (computed.find? (fun n => decide (n.target = t))).map fragments

/-- Modelled from the spec: the single-threaded reducer stage — after the
fragments are computed in an arbitrary order, they are merged into the final
document following the resolver's stable node order (spec §5, §9). -/
def reduceFrom (fragments : NodeData → List Rule) (computed : List NodeData)
    (order : List NodeData) : List Rule :=
  emitAll (order.map (fun n => (fragTable fragments computed n.target).getD []))

/-- Modelled from the spec: the resource paths a dependent's link recipe
references for one direct dependency's output, computed through the shared
deterministic resolve map — never from which parent asks (spec §3
invariants, §4.3). -/
def depContribution (resolve : TargetInfo → Option NodeData) (n : NodeData)
    (d : TargetInfo) : List String :=
  if d ∈ n.deps then (depObjects resolve d).map Resource.path else []

/-! ## Helper lemmas -/

theorem mem_depObjects {resolve : TargetInfo → Option NodeData}
    {d : TargetInfo} {r : Resource} :
    r ∈ depObjects resolve d ↔
      ∃ dn, resolve d = some dn ∧ isCompiledLibraryKind dn.kind = true ∧
        r ∈ dn.objects := by
  unfold depObjects
  cases h : resolve d with
  | none => simp
  | some dn =>
      by_cases hk : isCompiledLibraryKind dn.kind = true <;> simp [hk]

theorem append_ne_append_of_length {b s t : String}
    (h : s.length ≠ t.length) : b ++ s ≠ b ++ t := by
  intro he
  apply h
  have hl := congrArg String.length he
  simp only [String.length_append] at hl
  omega

theorem ne_append_of_length {b s : String} (h : s.length ≠ 0) : b ≠ b ++ s := by
  intro he
  apply h
  have hl := congrArg String.length he
  simp only [String.length_append] at hl
  omega

theorem chainNames_210 (base : String) :
    chainNames base "2" "1" "0" =
      [soName base ++ ".2.1.0", soName base ++ ".2.1",
       soName base ++ ".2", soName base] := by
  simp [chainNames, soName, String.append_assoc]

theorem symlinkRules_map_target (prev : String) (rest : List String) :
    (symlinkRules prev rest).map Rule.target = rest := by
  induction rest generalizing prev with
  | nil => rfl
  | cons n rs ih => simp [symlinkRules, ih]

theorem writeLink_map_target (names : List String) (objs : List String)
    (exportMap : String) :
    (writeLink names objs exportMap).map Rule.target = names := by
  cases names with
  | nil => rfl
  | cons real rest => simp [writeLink, linkRule, symlinkRules_map_target]

theorem installChain_ok_srcs {p : String} :
    ∀ {l : List String} {acts : List InstallAction},
      installChain p l = .ok acts → acts.map InstallAction.src = l := by
  intro l
  induction l with
  | nil =>
      intro acts h
      simp only [installChain] at h
      cases h
      rfl
  | cons n rest ih =>
      intro acts h
      simp only [installChain] at h
      cases hd : destInstallDir p ⟨n⟩ with
      | error e => rw [hd] at h; cases h
      | ok d =>
          rw [hd] at h
          cases hr : installChain p rest with
          | error e => rw [hr] at h; cases h
          | ok todo =>
              rw [hr] at h
              cases h
              simp [ih hr]

theorem emitRule_targets_nodup {mf : List Rule} (r : Rule)
    (h : (mf.map Rule.target).Nodup) :
    ((emitRule mf r).map Rule.target).Nodup := by
  unfold emitRule
  by_cases ha : mf.any (fun q => decide (q.target = r.target)) = true
  · simp only [ha, if_true]
    exact h
  · simp only [ha, if_false, Bool.false_eq_true]
    have hmem : r.target ∉ mf.map Rule.target := by
      intro hm
      obtain ⟨q, hq, he⟩ := List.mem_map.mp hm
      exact ha (List.any_eq_true.mpr ⟨q, hq, by simp [he]⟩)
    simp only [List.map_append, List.map_cons, List.map_nil]
    rw [List.nodup_append]
    exact ⟨h, List.nodup_singleton _, by simpa [List.Disjoint] using hmem⟩

theorem emitRules_targets_nodup (rs : List Rule) :
    ∀ {mf : List Rule}, (mf.map Rule.target).Nodup →
      ((emitRules mf rs).map Rule.target).Nodup := by
  induction rs with
  | nil => intro mf h; exact h
  | cons r rs ih =>
      intro mf h
      have : emitRules mf (r :: rs) = emitRules (emitRule mf r) rs := rfl
      rw [this]
      exact ih (emitRule_targets_nodup r h)

theorem emitAll_targets_nodup (frags : List (List Rule)) :
    ((emitAll frags).map Rule.target).Nodup := by
  have key : ∀ (fs : List (List Rule)) (mf : List Rule),
      (mf.map Rule.target).Nodup →
      ((fs.foldl emitRules mf).map Rule.target).Nodup := by
    intro fs
    induction fs with
    | nil => intro mf h; exact h
    | cons f fs ih =>
        intro mf h
        exact ih (emitRules mf f) (emitRules_targets_nodup f h)
  simpa [emitAll] using key frags [] (by simp)

theorem find?_eq_head?_filter {α : Type} (p : α → Bool) (l : List α) :
    l.find? p = (l.filter p).head? := by
  induction l with
  | nil => rfl
  | cons a l ih =>
      cases h : p a
      · rw [List.find?_cons_of_neg _ (by simp [h]),
          List.filter_cons_of_neg (by simp [h]), ih]
      · rw [List.find?_cons_of_pos _ h, List.filter_cons_of_pos h]
        rfl

theorem length_le_one_of_nodup_const {α β : Type} {l : List α} {f : α → β}
    {t : β} (hn : (l.map f).Nodup) (hall : ∀ x ∈ l, f x = t) :
    l.length ≤ 1 := by
  match l with
  | [] => simp
  | [a] => simp
  | a :: b :: l =>
      exfalso
      have ha := hall a (by simp)
      have hb := hall b (by simp)
      simp only [List.map_cons, List.nodup_cons] at hn
      exact hn.1 (by rw [ha, ← hb]; exact List.mem_cons_self _ _)

theorem fragTable_perm_eq (fragments : NodeData → List Rule)
    {computed1 computed2 : List NodeData}
    (hp : computed1.Perm computed2)
    (hn : (computed1.map NodeData.target).Nodup) :
    fragTable fragments computed1 = fragTable fragments computed2 := by
  funext t
  unfold fragTable
  congr 1
  rw [find?_eq_head?_filter, find?_eq_head?_filter]
  have hf := hp.filter (fun n => decide (n.target = t))
  have hnf : ((computed1.filter
      (fun n => decide (n.target = t))).map NodeData.target).Nodup :=
    List.Nodup.sublist
      (List.Sublist.map NodeData.target (List.filter_sublist computed1)) hn
  have hlen : (computed1.filter (fun n => decide (n.target = t))).length ≤ 1 :=
    length_le_one_of_nodup_const hnf
      (fun x hx => of_decide_eq_true (List.mem_filter.mp hx).2)
  rcases e : computed1.filter (fun n => decide (n.target = t)) with _ | ⟨a, rest⟩
  · rw [e] at hf
    rw [e, ← hf.nil_eq]
  · rw [e] at hf hlen
    cases rest with
    | cons x xs => simp at hlen
    | nil =>
        rw [e, ← List.singleton_perm.mp hf]

/-! ## Claim theorems -/

/-- Claim C6: the link input reported through `ObjectFiles` for a
shared-library node is exactly the union of the node's own compiled objects
and the compiled objects of every directly-depended-on
compiled-library-kind node. -/
theorem c6_link_input_union (resolve : TargetInfo → Option NodeData)
    (n : NodeData) (r : Resource) :
    r ∈ linkInput resolve n ↔
      r ∈ n.objects ∨ ∃ d ∈ n.deps, ∃ dn, resolve d = some dn ∧
        isCompiledLibraryKind dn.kind = true ∧ r ∈ dn.objects := by
  simp only [linkInput, List.mem_append, List.mem_flatten, List.mem_map]
  constructor
  · rintro (h | ⟨l, ⟨d, hd, rfl⟩, hr⟩)
    · exact Or.inl h
    · exact Or.inr ⟨d, hd, mem_depObjects.mp hr⟩
  · rintro (h | ⟨d, hd, hdn⟩)
    · exact Or.inl h
    · exact Or.inr ⟨depObjects resolve d, ⟨d, hd, rfl⟩, mem_depObjects.mpr hdn⟩

/-- Claim C3: a version descriptor giving minor without major, or release
without minor, makes Parse fail with a ConfigError and no Makefile text is
produced; a descriptor respecting monotonic specificity is accepted and the
rules are emitted. -/
theorem c3_version_validation (cfg : SharedLibConfig) (objs : List String) :
    ((cfg.minor ≠ "" ∧ cfg.major = "") ∨ (cfg.release ≠ "" ∧ cfg.minor = "") →
      ∃ msg, parseAndWrite cfg objs = .error (.configError msg)) ∧
    ((cfg.minor ≠ "" → cfg.major ≠ "") ∧ (cfg.release ≠ "" → cfg.minor ≠ "") →
      parseAndWrite cfg objs =
        .ok (writeLink (chainNames cfg.basename cfg.major cfg.minor cfg.release)
              objs cfg.exportMap)) := by
  constructor
  · rintro (⟨h1, h2⟩ | ⟨h1, h2⟩)
    · exact ⟨"minor version requires major version",
        by simp [parseAndWrite, parseVersion, h1, h2]⟩
    · exact ⟨"release version requires minor version",
        by simp [parseAndWrite, parseVersion, h1, h2]⟩
  · rintro ⟨ha, hb⟩
    have h1 : ¬(cfg.minor ≠ "" ∧ cfg.major = "") := fun h => ha h.1 h.2
    have h2 : ¬(cfg.release ≠ "" ∧ cfg.minor = "") := fun h => hb h.1 h.2
    simp [parseAndWrite, parseVersion, h1, h2]

/-- Witness for C3 at concrete inputs: minor without major is rejected, a
full monotonic triple is accepted. -/
theorem c3_version_validation_witness :
    (∃ msg, parseAndWrite ⟨"libfoo", "", "1", "", "", ""⟩ [] =
      .error (.configError msg)) ∧
    parseAndWrite ⟨"libfoo", "2", "1", "0", "", ""⟩ [] =
      .ok (writeLink (chainNames "libfoo" "2" "1" "0") [] "") :=
  ⟨(c3_version_validation ⟨"libfoo", "", "1", "", "", ""⟩ []).1
      (Or.inl ⟨by decide, rfl⟩),
   (c3_version_validation ⟨"libfoo", "2", "1", "0", "", ""⟩ []).2
      ⟨fun _ => by decide, fun _ => by decide⟩⟩

/-- Claim C2: for a shared-library node with version (2,1,0) and no export
map, `WriteLink` emits exactly four distinct rule targets forming a single
chain — the real linked file with the full major.minor.release suffix, then
one symlink rule per less-specific name, each with exactly one prerequisite,
the next-more-specific filename — and the unversioned name is never the real
file. -/
theorem c2_version_chain_210 (base : String) (objs : List String) :
    writeLink (chainNames base "2" "1" "0") objs "" =
      [linkRule (soName base ++ ".2.1.0") objs "",
       { target := soName base ++ ".2.1",
         prereqs := [soName base ++ ".2.1.0"],
         recipe := "ln -f -s " ++ (soName base ++ ".2.1.0") ++ " " ++
           (soName base ++ ".2.1") },
       { target := soName base ++ ".2",
         prereqs := [soName base ++ ".2.1"],
         recipe := "ln -f -s " ++ (soName base ++ ".2.1") ++ " " ++
           (soName base ++ ".2") },
       { target := soName base,
         prereqs := [soName base ++ ".2"],
         recipe := "ln -f -s " ++ (soName base ++ ".2") ++ " " ++
           soName base }] ∧
    ((writeLink (chainNames base "2" "1" "0") objs "").map Rule.target).Nodup ∧
    soName base ≠ soName base ++ ".2.1.0" := by
  refine ⟨?_, ?_, ne_append_of_length (by decide)⟩
  · rw [chainNames_210]
    rfl
  · rw [chainNames_210, writeLink_map_target]
    apply List.Nodup.of_map String.length
    have e1 : (".2.1.0" : String).length = 6 := rfl
    have e2 : (".2.1" : String).length = 4 := rfl
    have e3 : (".2" : String).length = 2 := rfl
    simp [String.length_append, e1, e2, e3, List.nodup_cons, List.mem_cons]

/-- Claim C4: whenever the install computation succeeds, the set of filenames
the install rules install is exactly the set of rule targets the build rules
produce for the node's soname chain — both derived from the one
chain-construction function, so a partial install cannot occur. -/
theorem c4_install_matches_build (cfg : SharedLibConfig) (objs : List String)
    (acts : List InstallAction)
    (h : localWriteMakeInstall cfg = .ok acts) :
    acts.map InstallAction.src =
      (writeLink (chainNames cfg.basename cfg.major cfg.minor cfg.release)
        objs cfg.exportMap).map Rule.target := by
  rw [writeLink_map_target]
  exact installChain_ok_srcs h

/-- Witness for C4 at a concrete configuration: the four installed filenames
are exactly the four build rule targets. -/
theorem c4_install_matches_build_witness :
    localWriteMakeInstall ⟨"libfoo", "2", "1", "0", "", ""⟩ =
      .ok [⟨"libfoo.so.2.1.0", "libfoo.so.2.1.0"⟩,
           ⟨"libfoo.so.2.1", "libfoo.so.2.1"⟩,
           ⟨"libfoo.so.2", "libfoo.so.2"⟩,
           ⟨"libfoo.so", "libfoo.so"⟩] ∧
    ([⟨"libfoo.so.2.1.0", "libfoo.so.2.1.0"⟩,
      ⟨"libfoo.so.2.1", "libfoo.so.2.1"⟩,
      ⟨"libfoo.so.2", "libfoo.so.2"⟩,
      ⟨"libfoo.so", "libfoo.so"⟩] : List InstallAction).map InstallAction.src =
      (writeLink (chainNames "libfoo" "2" "1" "0") [] "").map Rule.target :=
  ⟨rfl, c4_install_matches_build ⟨"libfoo", "2", "1", "0", "", ""⟩ [] _ rfl⟩

/-- Claim C5: `DestInstallDir` strips the configured strip prefix from the
source resource's path when it is an actual prefix; otherwise it fails with
a ConfigError (and, the result being an error, no output is produced). -/
theorem c5_dest_install_dir (p : String) (source : Resource) :
    (p.data.isPrefixOf source.path.data = true →
      destInstallDir p source = .ok (source.path.drop p.length)) ∧
    (p.data.isPrefixOf source.path.data = false →
      ∃ msg, destInstallDir p source = .error (.configError msg)) := by
  constructor
  · intro h
    simp [destInstallDir, h]
  · intro h
    exact ⟨"install strip path piece " ++ p ++ " does not begin " ++
      source.path, by simp [destInstallDir, h]⟩

/-- Witness for C5 at concrete inputs: a matching strip prefix is removed, a
mismatched one is a ConfigError. -/
theorem c5_dest_install_dir_witness :
    destInstallDir "out/" ⟨"out/lib/libfoo.so"⟩ =
      .ok ("out/lib/libfoo.so".drop "out/".length) ∧
    ∃ msg, destInstallDir "gen/" ⟨"out/lib/libfoo.so"⟩ =
      .error (.configError msg) :=
  ⟨(c5_dest_install_dir "out/" ⟨"out/lib/libfoo.so"⟩).1 (by decide),
   (c5_dest_install_dir "gen/" ⟨"out/lib/libfoo.so"⟩).2 (by decide)⟩

/-- Claim C9: `AutoconfNode::WriteMakefile` appends exactly one rule, the
user-facing placeholder target invoking the external build tool, and its
`ObjectFiles` contribution is the empty resource set. -/
theorem c9_autoconf_single_rule (t : TargetInfo) (cmd : String)
    (all_deps : List NodeData) (out : List Rule) (lang : LanguageType) :
    AutoconfNode.WriteMakefile t cmd all_deps out =
      out ++ [{ target := t.dir ++ "/" ++ t.name, prereqs := [],
                recipe := cmd }] ∧
    (AutoconfNode.WriteMakefile t cmd all_deps out).length = out.length + 1 ∧
    AutoconfNode.ObjectFiles lang = [] := by
  refine ⟨rfl, ?_, rfl⟩
  simp [AutoconfNode.WriteMakefile, writeBaseUserTarget]

/-- Claim C10: `AutoconfNode::WriteMakefile` never reads its `all_deps`
argument — the appended Makefile text is identical for any two resolved
dependency lists. -/
theorem c10_autoconf_deps_independent (t : TargetInfo) (cmd : String)
    (deps1 deps2 : List NodeData) (out : List Rule) :
    AutoconfNode.WriteMakefile t cmd deps1 out =
      AutoconfNode.WriteMakefile t cmd deps2 out := rfl

/-- Claim C1: the final emitted output contains no duplicate physical rule
targets — however many dependency paths reach a node's fragment — and two
dependents sharing a common dependency reference the same resource paths for
that dependency's output. -/
theorem c1_no_duplicate_targets (frags : List (List Rule))
    (resolve : TargetInfo → Option NodeData) (n1 n2 : NodeData)
    (d : TargetInfo) (h1 : d ∈ n1.deps) (h2 : d ∈ n2.deps) :
    ((emitAll frags).map Rule.target).Nodup ∧
    depContribution resolve n1 d = depContribution resolve n2 d := by
  refine ⟨emitAll_targets_nodup frags, ?_⟩
  simp [depContribution, h1, h2]

/-- Witness for C1: two node fragments both carrying the common dependency's
rule; the emitted output keeps one copy and both dependents see the same
path. -/
theorem c1_no_duplicate_targets_witness :
    ((emitAll [[⟨"libdep.a", [], "ar"⟩],
               [⟨"libdep.a", [], "ar"⟩, ⟨"liba.so", ["libdep.a"], "ld"⟩]]).map
        Rule.target).Nodup ∧
    depContribution
      (fun _ => some ⟨⟨"third_party", "dep"⟩, .ccLibrary, [], [⟨"dep.o"⟩]⟩)
      ⟨⟨"a", "a"⟩, .ccSharedLibrary, [⟨"third_party", "dep"⟩], []⟩
      ⟨"third_party", "dep"⟩ =
    depContribution
      (fun _ => some ⟨⟨"third_party", "dep"⟩, .ccLibrary, [], [⟨"dep.o"⟩]⟩)
      ⟨⟨"b", "b"⟩, .ccSharedLibrary, [⟨"third_party", "dep"⟩], []⟩
      ⟨"third_party", "dep"⟩ :=
  c1_no_duplicate_targets
    [[⟨"libdep.a", [], "ar"⟩],
     [⟨"libdep.a", [], "ar"⟩, ⟨"liba.so", ["libdep.a"], "ld"⟩]]
    (fun _ => some ⟨⟨"third_party", "dep"⟩, .ccLibrary, [], [⟨"dep.o"⟩]⟩)
    ⟨⟨"a", "a"⟩, .ccSharedLibrary, [⟨"third_party", "dep"⟩], []⟩
    ⟨⟨"b", "b"⟩, .ccSharedLibrary, [⟨"third_party", "dep"⟩], []⟩
    ⟨"third_party", "dep"⟩ (by decide) (by decide)

theorem nodeReady_false {resolved : List TargetInfo} {n : NodeData}
    {d : TargetInfo} (hd : d ∈ n.deps) (hres : d ∉ resolved) :
    (n.deps.all (fun x => decide (x ∈ resolved))) = false := by
  cases h : n.deps.all (fun x => decide (x ∈ resolved)) with
  | false => rfl
  | true => exact absurd (of_decide_eq_true (List.all_eq_true.mp h d hd)) hres

theorem resolveAux_cycle {C : List TargetInfo} (hC : C ≠ []) :
    ∀ (fuel : Nat) (resolved : List TargetInfo) (acc pending : List NodeData),
      (pending.map NodeData.target).Nodup →
      (∀ t ∈ C, t ∉ resolved) →
      (∀ t ∈ C, ∃ n ∈ pending, n.target = t ∧ ∃ d ∈ n.deps, d ∈ C) →
      ∃ rem, resolveAux fuel resolved acc pending =
        .error (.cycleError rem) := by
  intro fuel
  induction fuel with
  | zero =>
      intro resolved acc pending hnd hres hpend
      obtain ⟨t, ht⟩ := List.exists_mem_of_ne_nil C hC
      obtain ⟨n, hn, -⟩ := hpend t ht
      cases pending with
      | nil => exact absurd hn (List.not_mem_nil n)
      | cons p ps => exact ⟨(p :: ps).map NodeData.target, rfl⟩
  | succ fuel' ih =>
      intro resolved acc pending hnd hres hpend
      cases pending with
      | nil =>
          obtain ⟨t, ht⟩ := List.exists_mem_of_ne_nil C hC
          obtain ⟨n, hn, -⟩ := hpend t ht
          exact absurd hn (List.not_mem_nil n)
      | cons p ps =>
          have hpart : readyPartition resolved (p :: ps) =
              ((p :: ps).filter
                 (fun n => n.deps.all (fun d => decide (d ∈ resolved))),
               (p :: ps).filter
                 (not ∘ fun n => n.deps.all (fun d => decide (d ∈ resolved)))) :=
            List.partition_eq_filter_filter _ _
          by_cases hready : ((p :: ps).filter
              (fun n => n.deps.all (fun d => decide (d ∈ resolved)))).isEmpty =
                true
          · refine ⟨(p :: ps).map NodeData.target, ?_⟩
            simp only [resolveAux, hpart, hready, if_true]
          · have hready_targets : ∀ t ∈ C,
                t ∉ ((p :: ps).filter
                  (fun n => n.deps.all (fun d => decide (d ∈ resolved)))).map
                    NodeData.target := by
              intro t ht hmem
              obtain ⟨m, hm, hmt⟩ := List.mem_map.mp hmem
              have hmp := (List.mem_filter.mp hm).1
              have hmf := (List.mem_filter.mp hm).2
              obtain ⟨n, hn, hnt, d, hd, hdC⟩ := hpend t ht
              have hmn : m = n :=
                List.inj_on_of_nodup_map hnd hmp hn (by rw [hmt, hnt])
              subst hmn
              rw [nodeReady_false hd (hres d hdC)] at hmf
              exact Bool.false_ne_true hmf
            have hres' : ∀ t ∈ C,
                t ∉ resolved ++ ((p :: ps).filter
                  (fun n => n.deps.all (fun d => decide (d ∈ resolved)))).map
                    NodeData.target := by
              intro t ht hcon
              rcases List.mem_append.mp hcon with h | h
              · exact hres t ht h
              · exact hready_targets t ht h
            have hpend' : ∀ t ∈ C, ∃ n ∈ (p :: ps).filter
                (not ∘ fun n => n.deps.all (fun d => decide (d ∈ resolved))),
                n.target = t ∧ ∃ d ∈ n.deps, d ∈ C := by
              intro t ht
              obtain ⟨n, hn, hnt, d, hd, hdC⟩ := hpend t ht
              refine ⟨n, List.mem_filter.mpr ⟨hn, ?_⟩, hnt, d, hd, hdC⟩
              simp [Function.comp, nodeReady_false hd (hres d hdC)]
            have hnd' : (((p :: ps).filter
                (not ∘ fun n => n.deps.all
                  (fun d => decide (d ∈ resolved)))).map
                    NodeData.target).Nodup :=
              List.Nodup.sublist
                (List.Sublist.map NodeData.target (List.filter_sublist _)) hnd
            obtain ⟨rem, hrem⟩ := ih
              (resolved ++ ((p :: ps).filter
                (fun n => n.deps.all (fun d => decide (d ∈ resolved)))).map
                  NodeData.target)
              (acc ++ (p :: ps).filter
                (fun n => n.deps.all (fun d => decide (d ∈ resolved))))
              ((p :: ps).filter
                (not ∘ fun n => n.deps.all (fun d => decide (d ∈ resolved))))
              hnd' hres' hpend'
            refine ⟨rem, ?_⟩
            simp only [resolveAux, hpart, hready, if_false]
            exact hrem

/-- Claim C7: a dependency graph containing a cycle (including through
shared-library object-absorption edges, which are declared dependency edges)
makes the resolver fail with a CycleError, and the compilation produces no
partial Makefile output. -/
theorem c7_cycle_error (fragments : NodeData → List Rule)
    (nodes : List NodeData) (hnd : (nodes.map NodeData.target).Nodup)
    (hc : HasCycle nodes) :
    ∃ rem, compileGraph fragments nodes = .error (.cycleError rem) := by
  obtain ⟨C, hC, hwit⟩ := hc
  obtain ⟨rem, hrem⟩ :=
    resolveAux_cycle hC nodes.length [] [] nodes hnd (by simp) hwit
  exact ⟨rem, by simp [compileGraph, resolveGraph, hrem, Except.map]⟩

/-- Witness for C7: a two-node cycle (each node depending on the other) fails
with a CycleError. -/
theorem c7_cycle_error_witness :
    ∃ rem, compileGraph (fun _ => [])
      [⟨⟨"a", "a"⟩, .ccSharedLibrary, [⟨"b", "b"⟩], []⟩,
       ⟨⟨"b", "b"⟩, .ccLibrary, [⟨"a", "a"⟩], []⟩] =
      .error (.cycleError rem) :=
  c7_cycle_error (fun _ => [])
    [⟨⟨"a", "a"⟩, .ccSharedLibrary, [⟨"b", "b"⟩], []⟩,
     ⟨⟨"b", "b"⟩, .ccLibrary, [⟨"a", "a"⟩], []⟩]
    (by decide)
    ⟨[⟨"a", "a"⟩, ⟨"b", "b"⟩], by decide, by decide⟩

/-- Claim C8: the transformation is deterministic — the reduced Makefile is
independent of the order in which the per-node fragments were computed (so no
dependence on traversal order or on which parent queries a node first), and
hence two runs on identical input produce byte-identical output. -/
theorem c8_deterministic (fragments : NodeData → List Rule)
    (computed1 computed2 order : List NodeData)
    (hp : computed1.Perm computed2)
    (hn : (computed1.map NodeData.target).Nodup) :
    reduceFrom fragments computed1 order =
      reduceFrom fragments computed2 order := by
  unfold reduceFrom
  rw [fragTable_perm_eq fragments hp hn]

/-- Witness for C8: two fragment-computation orders that are permutations of
each other reduce to the same output document. -/
theorem c8_deterministic_witness :
    reduceFrom (fun n => [⟨n.target.name, [], ""⟩])
      [⟨⟨"a", "a"⟩, .ccLibrary, [], []⟩, ⟨⟨"b", "b"⟩, .ccLibrary, [], []⟩]
      [⟨⟨"a", "a"⟩, .ccLibrary, [], []⟩, ⟨⟨"b", "b"⟩, .ccLibrary, [], []⟩] =
    reduceFrom (fun n => [⟨n.target.name, [], ""⟩])
      [⟨⟨"b", "b"⟩, .ccLibrary, [], []⟩, ⟨⟨"a", "a"⟩, .ccLibrary, [], []⟩]
      [⟨⟨"a", "a"⟩, .ccLibrary, [], []⟩, ⟨⟨"b", "b"⟩, .ccLibrary, [], []⟩] :=
  c8_deterministic (fun n => [⟨n.target.name, [], ""⟩])
    [⟨⟨"a", "a"⟩, .ccLibrary, [], []⟩, ⟨⟨"b", "b"⟩, .ccLibrary, [], []⟩]
    [⟨⟨"b", "b"⟩, .ccLibrary, [], []⟩, ⟨⟨"a", "a"⟩, .ccLibrary, [], []⟩]
    [⟨⟨"a", "a"⟩, .ccLibrary, [], []⟩, ⟨⟨"b", "b"⟩, .ccLibrary, [], []⟩]
    (List.Perm.swap _ _ [])
    (by decide)

end Repobuild
